import Mathlib

/-!
# Verification of the BLED112 protocol framing and dispatch engine

Shallow embedding of `src/bled112client.h` (class `Bled112Client`): the
header validator (`checkHeader`), the typed read path (`read<T>`), the
payload readers (`readPayload`), the write path (`write`), and the
variadic first-match dispatch engine (`dispatch` / `read(functions...)`).

The repository's `bleapi.h` (the `Header` struct, `pack`/`unpack`,
`getHeader`, the `Partial` trait and the concrete message structs) and
`serial.h` (the `Serial` transport) are not part of the provided source;
those pieces are modelled from the spec and are marked as such in their
doc comments.  Everything else is translated directly from
`src/bled112client.h`.

Modelling conventions:
* a byte is a `Nat` (masked with `% 256` where the codec produces bytes);
* a `Buffer` is a `List Nat`;
* the serial transport is a pair of byte lists (pending input, written
  output); `read n` is all-or-nothing (`none` models a read that the
  transport cannot complete), per the spec's transport contract;
* a C++ message struct `T` is described by its field layout (a list of
  byte widths, so `sizeof(T)` is the sum) together with its static
  identity `(cls, cmd)` and its `Partial`-trait kind;
* handlers are identified by their position in the handler list; a
  dispatch outcome records which handler was invoked and with which
  decoded arguments, since the handler bodies themselves are opaque
  callbacks.
-/

/-- Modelled from the spec: the 4-byte wire header of `bleapi.h` (not in
src).  Per the spec it carries `classId : u8`, `commandId : u8` and a
derived payload length `length() : u16`. -/
structure Header where
  cls : Nat
  cmd : Nat
  len : Nat
deriving DecidableEq, Repr

/-- The `Partial<T>` trait of `bleapi.h` (not in src), modelled from the
spec as a two-valued kind: `fixed` payloads occupy exactly `sizeof(T)`
bytes; `trailing` (the C++ `Partial` case) payloads are a fixed-size
prefix plus a variable-length trailing buffer. -/
inductive MsgKind
| fixed
| trailing
deriving DecidableEq, Repr

/-- Modelled from the spec: the static descriptor of a message struct of
`bleapi.h` (not in src): class id, command id, the byte widths of its
fields in declaration order (so `sizeof(T)` is their sum), and its
`Partial`-trait kind. -/
structure MsgType where
  cls : Nat
  cmd : Nat
  layout : List Nat
  kind : MsgKind
deriving DecidableEq, Repr

/-- `sizeof(T)`: the number of bytes occupied by the decodable struct. -/
def MsgType.fixedSize (T : MsgType) : Nat := T.layout.sum

/-- Modelled from the spec: the state of the `Serial` transport of
`serial.h` (not in src): the bytes still pending on the stream and the
bytes written so far. -/
structure SerialState where
  input : List Nat
  output : List Nat
deriving DecidableEq, Repr

/-- Modelled from the spec: `Serial::read(n)` blocks until exactly `n`
bytes are available and is all-or-nothing; `none` models a read the
transport cannot complete. -/
def socketRead (n : Nat) (s : SerialState) : Option (List Nat × SerialState) :=
  if n ≤ s.input.length then
    some (s.input.take n, ⟨s.input.drop n, s.output⟩)
  else
    none

/-- Modelled from the spec: `Serial::write(bytes)` appends the bytes to
the stream. -/
def socketWrite (b : List Nat) (s : SerialState) : SerialState :=
  ⟨s.input, s.output ++ b⟩

/-- C++ unsigned subtraction as it happens in
`socket.read(header.length() - sizeof(T))` (bled112client.h line 111):
the usual arithmetic conversions carry the subtraction out in `size_t`,
so it wraps modulo `2^64` when the subtrahend is larger. -/
def sizeSub (a b : Nat) : Nat :=
  if b ≤ a then a - b else 2 ^ 64 - (b - a)

/-- Modelled from the spec: `pack` of a single fixed-width little-endian
integer field of `bleapi.h` (not in src): `width` bytes, low byte
first. -/
def encodeField : Nat → Nat → List Nat
  | 0, _ => []
  | w + 1, v => v % 256 :: encodeField w (v / 256)

/-- Modelled from the spec: `unpack` of a single little-endian integer
field from its bytes. -/
def decodeField : List Nat → Nat
  | [] => 0
  | b :: bs => b % 256 + 256 * decodeField bs

/-- Modelled from the spec: `pack` of a whole message struct: each
`(width, value)` field encoded in declaration order. -/
def encodeFields : List (Nat × Nat) → List Nat
  | [] => []
  | (w, v) :: ps => encodeField w v ++ encodeFields ps

/-- Modelled from the spec: `unpack` of a whole message struct: split the
byte string according to the field widths and decode each field. -/
def decodeFields : List Nat → List Nat → List Nat
  | [], _ => []
  | w :: ws, b => decodeField (b.take w) :: decodeFields ws (b.drop w)

/-- Modelled from the spec: `pack(Header)` of `bleapi.h` (not in src).
The spec fixes class id and command id as single bytes and packs the
length into the remaining two bytes; the exact bit assignment is
hardware-defined, so a representative layout is chosen: length
little-endian in bytes 0-1, class in byte 2, command in byte 3. -/
def encodeHeader (h : Header) : List Nat :=
  [h.len % 256, h.len / 256 % 256, h.cls % 256, h.cmd % 256]

/-- Modelled from the spec: `unpack<Header>` of `bleapi.h` (not in src),
inverse of the layout of `encodeHeader`. -/
def decodeHeader (b : List Nat) : Header :=
  { cls := b.getD 2 0 % 256
    cmd := b.getD 3 0 % 256
    len := b.getD 0 0 % 256 + 256 * (b.getD 1 0 % 256) }

/-- Modelled from the spec: `getHeader<T>(size)` of `bleapi.h` (not in
src): the header for an outgoing message of type `T`, with length
`sizeof(T) + size` where `size` counts the trailing bytes. -/
def getHeader (T : MsgType) (extra : Nat) : Header :=
  ⟨T.cls, T.cmd, T.fixedSize + extra⟩

/-- The error classes thrown by `Bled112Client::checkHeader`
(bled112client.h lines 87-99), one per `std::runtime_error` message. -/
inductive HeaderError
| classMismatch
| commandMismatch
| lengthMismatch
deriving DecidableEq, Repr

/-- `Bled112Client::checkHeader<T>` (bled112client.h lines 87-99): class
id is checked first, then command id, and the payload length only for
non-`Partial` types. -/
def checkHeader (T : MsgType) (h : Header) : Option HeaderError :=
  if h.cls ≠ T.cls then some .classMismatch
  else if h.cmd ≠ T.cmd then some .commandMismatch
  else if T.kind = .fixed ∧ h.len ≠ T.fixedSize then some .lengthMismatch
  else none

/-- `Bled112Client::readPayload<T>(header)` (bled112client.h lines
101-105): read `header.length()` bytes and unpack `T` from them. -/
def readPayload (T : MsgType) (h : Header) (s : SerialState) :
    Option (List Nat × SerialState) :=
  match socketRead h.len s with
  | some (b, s') => some (decodeFields T.layout b, s')
  | none => none

/-- `Bled112Client::readPayload<T>(header, leftover)` (bled112client.h
lines 107-113): read `sizeof(T)` bytes, unpack `T`, then read
`header.length() - sizeof(T)` bytes (an unsigned subtraction, see
`sizeSub`) into the leftover buffer. -/
def readPayloadLeft (T : MsgType) (h : Header) (s : SerialState) :
    Option (List Nat × List Nat × SerialState) :=
  match socketRead T.fixedSize s with
  | some (b, s1) =>
    match socketRead (sizeSub h.len T.fixedSize) s1 with
    | some (tr, s2) => some (decodeFields T.layout b, tr, s2)
    | none => none
  | none => none

/-- `Bled112Client::write<T>(payload)` (bled112client.h lines 67-72):
write the packed header, then the packed payload. -/
def writeMsg (T : MsgType) (v : List Nat) (s : SerialState) : SerialState :=
  socketWrite (encodeFields (T.layout.zip v)) (socketWrite (encodeHeader (getHeader T 0)) s)

/-- `Bled112Client::write<T>(payload, leftover)` (bled112client.h lines
74-80): write the packed header (length includes the leftover size),
then the packed payload, then the leftover bytes. -/
def writeMsgLeft (T : MsgType) (v : List Nat) (leftover : List Nat) (s : SerialState) :
    SerialState :=
  socketWrite leftover
    (socketWrite (encodeFields (T.layout.zip v))
      (socketWrite (encodeHeader (getHeader T leftover.length)) s))

/-- `Bled112Client::read<T>()` (bled112client.h lines 115-121): read the
header, validate it against `T`, then read and unpack the payload.  The
result keeps the transport state reached by a failing call so that its
frame effect can be stated; `none` models a transport-level failure. -/
def readTyped (T : MsgType) (s : SerialState) :
    Option (SerialState × Except HeaderError (List Nat)) :=
  match socketRead 4 s with
  | none => none
  | some (hb, s1) =>
    let h := decodeHeader hb
    match checkHeader T h with
    | some e => some (s1, .error e)
    | none =>
      match readPayload T h s1 with
      | some (v, s2) => some (s2, .ok v)
      | none => none

/-- `Bled112Client::read<T>(leftover)` (bled112client.h lines 123-129):
as `readTyped` but decoding a fixed prefix plus the trailing buffer. -/
def readTypedLeft (T : MsgType) (s : SerialState) :
    Option (SerialState × Except HeaderError (List Nat × List Nat)) :=
  match socketRead 4 s with
  | none => none
  | some (hb, s1) =>
    let h := decodeHeader hb
    match checkHeader T h with
    | some e => some (s1, .error e)
    | none =>
      match readPayloadLeft T h s1 with
      | some (v, tr, s2) => some (s2, .ok (v, tr))
      | none => none

/-- The match test of the two `Bled112Client::dispatch` overloads: the
non-`Partial` overload (line 139) tests class, command and exact length;
the `Partial` overload (line 152) tests class and command only. -/
def matchTest (T : MsgType) (h : Header) : Bool :=
  match T.kind with
  | .fixed => h.cls == T.cls && h.cmd == T.cmd && h.len == T.fixedSize
  | .trailing => h.cls == T.cls && h.cmd == T.cmd

/-- The outcome of one dispatch: either handler number `idx` was invoked
with the decoded value (and, for a `Partial` handler, the trailing
buffer), or no handler matched. -/
inductive DispatchResult
| invoked (idx : Nat) (value : List Nat) (trailing : Option (List Nat))
| noMatch
deriving DecidableEq, Repr

/-- The body of a matching `dispatch` overload (bled112client.h lines
140 and 153-156): decode the payload per the handler's kind and invoke
the handler, recorded as a `DispatchResult`. -/
def invokeAt (idx : Nat) (T : MsgType) (h : Header) (s : SerialState) :
    Option (DispatchResult × SerialState) :=
  match T.kind with
  | .fixed =>
    match readPayload T h s with
    | some (v, s') => some (.invoked idx v none, s')
    | none => none
  | .trailing =>
    match readPayloadLeft T h s with
    | some (v, tr, s') => some (.invoked idx v (some tr), s')
    | none => none

/-- The `Bled112Client::dispatch` overload chain (bled112client.h lines
131-160): try each handler in order; on the first whose test passes,
decode and invoke it; with no handlers left, do nothing (line 131).
`idx` numbers the handlers for the recorded outcome. -/
def dispatchFrom (h : Header) : Nat → List MsgType → SerialState →
    Option (DispatchResult × SerialState)
  | _, [], s => some (.noMatch, s)
  | idx, T :: Ts, s =>
    if matchTest T h then invokeAt idx T h s
    else dispatchFrom h (idx + 1) Ts s

/-- `Bled112Client::read(functions...)` (bled112client.h lines 169-174):
read one header and dispatch it over the handler list. -/
def readDispatch (Ts : List MsgType) (s : SerialState) :
    Option (DispatchResult × SerialState) :=
  match socketRead 4 s with
  | some (hb, s1) => dispatchFrom (decodeHeader hb) 0 Ts s1
  | none => none

/-! ## Helper lemmas -/

lemma socketRead_of_le {n : Nat} {s : SerialState} (hn : n ≤ s.input.length) :
    socketRead n s = some (s.input.take n, ⟨s.input.drop n, s.output⟩) := by
  simp [socketRead, hn]

lemma readTyped_of_le (T : MsgType) (s : SerialState) (h4 : 4 ≤ s.input.length) :
    readTyped T s =
      match checkHeader T (decodeHeader (s.input.take 4)) with
      | some e => some (⟨s.input.drop 4, s.output⟩, .error e)
      | none =>
        match readPayload T (decodeHeader (s.input.take 4)) ⟨s.input.drop 4, s.output⟩ with
        | some (v, s2) => some (s2, .ok v)
        | none => none := by
  rw [readTyped, socketRead_of_le h4]

lemma dispatchFrom_of_all_false (h : Header) (k : Nat) (Ts : List MsgType) (s : SerialState)
    (hall : ∀ T ∈ Ts, matchTest T h = false) :
    dispatchFrom h k Ts s = some (.noMatch, s) := by
  induction Ts generalizing k with
  | nil => rfl
  | cons T Ts ih =>
    have hT := hall T (List.mem_cons_self T Ts)
    simp [dispatchFrom, hT, ih (k + 1) fun U hU => hall U (List.mem_cons_of_mem _ hU)]

/-! ## Claims -/

/-- C3: if no handler's test passes, dispatch silently discards the
message: no handler is invoked, no error is raised, and the call returns
normally with the transport state untouched by the dispatch step. -/
theorem dispatch_unmatched_silent (Ts : List MsgType) (h : Header) (s : SerialState)
    (hall : ∀ T ∈ Ts, matchTest T h = false) :
    dispatchFrom h 0 Ts s = some (.noMatch, s) ∧
    ∀ i v tr s', dispatchFrom h 0 Ts s ≠ some (.invoked i v tr, s') := by
  have h0 := dispatchFrom_of_all_false h 0 Ts s hall
  refine ⟨h0, fun i v tr s' hcon => ?_⟩
  rw [h0] at hcon
  simp at hcon

theorem dispatch_unmatched_silent_witness :
    dispatchFrom ⟨9, 9, 0⟩ 0 [⟨1, 1, [1], .fixed⟩, ⟨2, 2, [1], .trailing⟩] ⟨[], []⟩ =
      some (.noMatch, ⟨[], []⟩) :=
  (dispatch_unmatched_silent _ _ _ (by decide)).1

/-- C8: when no handler matches, the dispatching read consumes exactly
the 4 header bytes: the payload bytes stay on the stream. -/
theorem readDispatch_unmatched_frame (Ts : List MsgType) (s : SerialState)
    (h4 : 4 ≤ s.input.length)
    (hall : ∀ T ∈ Ts, matchTest T (decodeHeader (s.input.take 4)) = false) :
    readDispatch Ts s = some (.noMatch, ⟨s.input.drop 4, s.output⟩) ∧
    (s.input.drop 4).length + 4 = s.input.length := by
  constructor
  · rw [readDispatch, socketRead_of_le h4]
    exact dispatchFrom_of_all_false _ 0 Ts _ hall
  · rw [List.length_drop]
    omega

theorem readDispatch_unmatched_frame_witness :
    readDispatch [⟨1, 1, [1], .fixed⟩, ⟨2, 2, [1], .trailing⟩] ⟨[0, 0, 9, 9, 5, 5], []⟩ =
      some (.noMatch, ⟨[5, 5], []⟩) ∧
    ([(5 : Nat), 5] : List Nat).length + 4 = 6 := by
  have := readDispatch_unmatched_frame [⟨1, 1, [1], .fixed⟩, ⟨2, 2, [1], .trailing⟩]
    ⟨[0, 0, 9, 9, 5, 5], []⟩ (by decide) (by decide)
  exact this

/-- C10: the validator reports mismatches with a fixed precedence:
class before command before length; the first failing check determines
the error, whatever the later fields hold. -/
theorem checkHeader_precedence (T : MsgType) (h : Header) :
    (h.cls ≠ T.cls → checkHeader T h = some .classMismatch) ∧
    (h.cls = T.cls → h.cmd ≠ T.cmd → checkHeader T h = some .commandMismatch) ∧
    (h.cls = T.cls → h.cmd = T.cmd →
      checkHeader T h =
        if T.kind = .fixed ∧ h.len ≠ T.fixedSize then some .lengthMismatch else none) :=
  ⟨fun h1 => by simp [checkHeader, h1],
   fun h1 h2 => by simp [checkHeader, h1, h2],
   fun h1 h2 => by simp [checkHeader, h1, h2]⟩

theorem checkHeader_precedence_witness :
    checkHeader ⟨1, 2, [1], .fixed⟩ ⟨9, 8, 7⟩ = some .classMismatch :=
  (checkHeader_precedence ⟨1, 2, [1], .fixed⟩ ⟨9, 8, 7⟩).1 (by decide)

/-- C6: a send writes the header (length `sizeof(T)` plus the trailing
size, or exactly `sizeof(T)` without a trailing buffer), then the packed
payload, then the trailing bytes, in that order and nothing else; the
input side of the transport is untouched. -/
theorem write_wire_format (T : MsgType) (v : List Nat) (tr : List Nat) (s : SerialState) :
    (writeMsg T v s).output =
        s.output ++ encodeHeader ⟨T.cls, T.cmd, T.fixedSize⟩ ++ encodeFields (T.layout.zip v) ∧
    (writeMsg T v s).input = s.input ∧
    (writeMsgLeft T v tr s).output =
        s.output ++ encodeHeader ⟨T.cls, T.cmd, T.fixedSize + tr.length⟩ ++
          encodeFields (T.layout.zip v) ++ tr ∧
    (writeMsgLeft T v tr s).input = s.input := by
  simp [writeMsg, writeMsgLeft, socketWrite, getHeader, List.append_assoc]

/-- C9: a typed read that fails with a header mismatch has consumed
exactly the 4 header bytes and no payload bytes. -/
theorem readTyped_mismatch_frame (T : MsgType) (s s' : SerialState) (e : HeaderError)
    (hres : readTyped T s = some (s', .error e)) :
    s'.input = s.input.drop 4 ∧ s'.output = s.output ∧ s'.input.length + 4 = s.input.length := by
  by_cases h4 : 4 ≤ s.input.length
  · rw [readTyped_of_le T s h4] at hres
    cases hch : checkHeader T (decodeHeader (s.input.take 4)) with
    | some e' =>
      rw [hch] at hres
      simp only [Option.some.injEq, Prod.mk.injEq] at hres
      obtain ⟨hs, _⟩ := hres
      subst hs
      refine ⟨rfl, rfl, ?_⟩
      simp only [List.length_drop]
      omega
    | none =>
      rw [hch] at hres
      cases hrp : readPayload T (decodeHeader (s.input.take 4)) ⟨s.input.drop 4, s.output⟩ with
      | some p =>
        rw [hrp] at hres
        simp at hres
      | none =>
        rw [hrp] at hres
        simp at hres
  · rw [readTyped, socketRead] at hres
    simp [h4] at hres

theorem readTyped_mismatch_frame_witness :
    (⟨[7], []⟩ : SerialState).input = (⟨[0, 0, 5, 5, 7], []⟩ : SerialState).input.drop 4 ∧
    (⟨[7], []⟩ : SerialState).output = (⟨[0, 0, 5, 5, 7], []⟩ : SerialState).output ∧
    (⟨[7], []⟩ : SerialState).input.length + 4 =
      (⟨[0, 0, 5, 5, 7], []⟩ : SerialState).input.length :=
  readTyped_mismatch_frame ⟨1, 2, [1], .fixed⟩ ⟨[0, 0, 5, 5, 7], []⟩ ⟨[7], []⟩
    .classMismatch (by rfl)

/-- C1 counterexample: the `Partial` dispatch overload's test passes on
a header whose length is below `sizeof(T)`, so the test is not the
claimed `cls = ∧ cmd = ∧ length ≥ fixedSize`. -/
theorem matchTest_trailing_no_length_cex :
    matchTest ⟨2, 3, [1, 1], .trailing⟩ ⟨2, 3, 1⟩ = true ∧
    ¬(MsgType.fixedSize ⟨2, 3, [1, 1], .trailing⟩ ≤ (⟨2, 3, 1⟩ : Header).len) := by
  decide

/-- C1 (amended): for a `Partial`-kind handler type T the dispatch match
test passes iff the class id and command id match; the header length is
not examined at all. -/
theorem matchTest_trailing_iff (T : MsgType) (h : Header) (hk : T.kind = .trailing) :
    matchTest T h = true ↔ (h.cls = T.cls ∧ h.cmd = T.cmd) := by
  cases T with
  | mk c m l k =>
    cases k with
    | fixed => simp at hk
    | trailing => simp [matchTest]

theorem matchTest_trailing_iff_witness :
    matchTest ⟨5, 6, [1], .trailing⟩ ⟨5, 6, 0⟩ = true ↔
      ((⟨5, 6, 0⟩ : Header).cls = 5 ∧ (⟨5, 6, 0⟩ : Header).cmd = 6) :=
  matchTest_trailing_iff ⟨5, 6, [1], .trailing⟩ ⟨5, 6, 0⟩ rfl

/-! ## Dispatch helper lemmas -/

lemma dispatchFrom_append (h : Header) (k : Nat) (Ts1 : List MsgType) (T : MsgType)
    (Ts2 : List MsgType) (s : SerialState)
    (hb : ∀ U ∈ Ts1, matchTest U h = false) (hm : matchTest T h = true) :
    dispatchFrom h k (Ts1 ++ T :: Ts2) s = invokeAt (k + Ts1.length) T h s := by
  induction Ts1 generalizing k with
  | nil => simp [dispatchFrom, hm]
  | cons U Us ih =>
    have hU := hb U (List.mem_cons_self U Us)
    simp only [List.cons_append, dispatchFrom, hU, Bool.false_eq_true, if_false]
    show dispatchFrom h (k + 1) (Us ++ T :: Ts2) s = invokeAt (k + (U :: Us).length) T h s
    rw [ih (k + 1) fun V hV => hb V (List.mem_cons_of_mem _ hV)]
    congr 1
    simp only [List.length_cons]
    omega

lemma invokeAt_fixed (i : Nat) (T : MsgType) (h : Header) (s : SerialState)
    (hk : T.kind = .fixed) (hlen : h.len ≤ s.input.length) :
    invokeAt i T h s =
      some (.invoked i (decodeFields T.layout (s.input.take h.len)) none,
        ⟨s.input.drop h.len, s.output⟩) := by
  cases T with
  | mk c m l k =>
    cases k with
    | trailing => simp at hk
    | fixed => simp only [invokeAt, readPayload, socketRead_of_le hlen]

lemma invokeAt_trailing (i : Nat) (T : MsgType) (h : Header) (s : SerialState)
    (hk : T.kind = .trailing)
    (hlen : T.fixedSize + sizeSub h.len T.fixedSize ≤ s.input.length) :
    invokeAt i T h s =
      some (.invoked i (decodeFields T.layout (s.input.take T.fixedSize))
          (some ((s.input.drop T.fixedSize).take (sizeSub h.len T.fixedSize))),
        ⟨(s.input.drop T.fixedSize).drop (sizeSub h.len T.fixedSize), s.output⟩) := by
  have h1 : T.fixedSize ≤ s.input.length := le_trans (Nat.le_add_right _ _) hlen
  have h2 : sizeSub h.len T.fixedSize ≤
      (SerialState.mk (s.input.drop T.fixedSize) s.output).input.length := by
    simp only [List.length_drop]
    omega
  cases T with
  | mk c m l k =>
    cases k with
    | fixed => simp at hk
    | trailing =>
      simp only [invokeAt, readPayloadLeft, socketRead_of_le h1, socketRead_of_le h2]

/-- C2: dispatch is first-match-wins: with every handler before T failing
the test and T passing it, the message is decoded per T's kind (fixed: a
single value; `Partial`: value plus trailing buffer), exactly handler
`Ts1.length` is invoked, and the handlers after T play no role. -/
theorem dispatch_first_match (Ts1 Ts2 : List MsgType) (T : MsgType) (h : Header)
    (s : SerialState)
    (hb : ∀ U ∈ Ts1, matchTest U h = false) (hm : matchTest T h = true) :
    dispatchFrom h 0 (Ts1 ++ T :: Ts2) s = invokeAt Ts1.length T h s ∧
    (T.kind = .fixed → h.len ≤ s.input.length →
      dispatchFrom h 0 (Ts1 ++ T :: Ts2) s =
        some (.invoked Ts1.length (decodeFields T.layout (s.input.take h.len)) none,
          ⟨s.input.drop h.len, s.output⟩)) ∧
    (T.kind = .trailing → T.fixedSize + sizeSub h.len T.fixedSize ≤ s.input.length →
      dispatchFrom h 0 (Ts1 ++ T :: Ts2) s =
        some (.invoked Ts1.length (decodeFields T.layout (s.input.take T.fixedSize))
            (some ((s.input.drop T.fixedSize).take (sizeSub h.len T.fixedSize))),
          ⟨(s.input.drop T.fixedSize).drop (sizeSub h.len T.fixedSize), s.output⟩)) := by
  have h0 : dispatchFrom h 0 (Ts1 ++ T :: Ts2) s = invokeAt Ts1.length T h s := by
    have := dispatchFrom_append h 0 Ts1 T Ts2 s hb hm
    simpa using this
  refine ⟨h0, fun hk hlen => ?_, fun hk hlen => ?_⟩
  · rw [h0, invokeAt_fixed _ _ _ _ hk hlen]
  · rw [h0, invokeAt_trailing _ _ _ _ hk hlen]

theorem dispatch_first_match_witness :
    dispatchFrom ⟨2, 3, 4⟩ 0
        ([] ++ (⟨2, 3, [1, 1, 1, 1], .fixed⟩ : MsgType) :: [⟨2, 3, [1, 1], .trailing⟩])
        ⟨[9, 9, 9, 9], []⟩ =
      invokeAt ([] : List MsgType).length ⟨2, 3, [1, 1, 1, 1], .fixed⟩ ⟨2, 3, 4⟩
        ⟨[9, 9, 9, 9], []⟩ :=
  (dispatch_first_match [] [⟨2, 3, [1, 1], .trailing⟩] ⟨2, 3, [1, 1, 1, 1], .fixed⟩
    ⟨2, 3, 4⟩ ⟨[9, 9, 9, 9], []⟩ (by decide) (by decide)).1

/-- C4: the typed read fails with exactly the validator's classified
error (class mismatch, else command mismatch, else length mismatch for
fixed-size types), succeeds with the decoded payload otherwise, and
performs no length check for `Partial` types. -/
theorem readTyped_validator (T : MsgType) (s : SerialState) (h : Header) (s1 : SerialState)
    (h4 : 4 ≤ s.input.length)
    (hh : h = decodeHeader (s.input.take 4))
    (hs1 : s1 = ⟨s.input.drop 4, s.output⟩) :
    (h.cls ≠ T.cls → readTyped T s = some (s1, .error .classMismatch)) ∧
    (h.cls = T.cls → h.cmd ≠ T.cmd → readTyped T s = some (s1, .error .commandMismatch)) ∧
    (h.cls = T.cls → h.cmd = T.cmd → T.kind = .fixed → h.len ≠ T.fixedSize →
      readTyped T s = some (s1, .error .lengthMismatch)) ∧
    (T.kind = .trailing → h.cls = T.cls → h.cmd = T.cmd → checkHeader T h = none) ∧
    (h.cls = T.cls → h.cmd = T.cmd → (T.kind = .fixed → h.len = T.fixedSize) →
      h.len ≤ s1.input.length →
      readTyped T s = some (⟨s1.input.drop h.len, s1.output⟩,
        .ok (decodeFields T.layout (s1.input.take h.len)))) := by
  subst hh
  subst hs1
  refine ⟨fun h1 => ?_, fun h1 h2 => ?_, fun h1 h2 h3 hl => ?_, fun hk h1 h2 => ?_,
    fun h1 h2 h3 hlen => ?_⟩
  · rw [readTyped_of_le T s h4,
      show checkHeader T (decodeHeader (s.input.take 4)) = some .classMismatch from by
        simp [checkHeader, h1]]
  · rw [readTyped_of_le T s h4,
      show checkHeader T (decodeHeader (s.input.take 4)) = some .commandMismatch from by
        simp [checkHeader, h1, h2]]
  · rw [readTyped_of_le T s h4,
      show checkHeader T (decodeHeader (s.input.take 4)) = some .lengthMismatch from by
        simp [checkHeader, h1, h2, h3, hl]]
  · simp [checkHeader, h1, h2, hk]
  · have hno : ¬(T.kind = .fixed ∧ ¬(decodeHeader (s.input.take 4)).len = T.fixedSize) :=
      fun hc => hc.2 (h3 hc.1)
    rw [readTyped_of_le T s h4,
      show checkHeader T (decodeHeader (s.input.take 4)) = none from by
        simp only [checkHeader, h1, h2]
        simp [hno],
      readPayload, socketRead_of_le hlen]

theorem readTyped_validator_witness :
    readTyped ⟨1, 2, [1], .fixed⟩ ⟨[0, 0, 6, 6, 3], []⟩ =
      some (⟨[3], []⟩, .error .classMismatch) :=
  (readTyped_validator ⟨1, 2, [1], .fixed⟩ ⟨[0, 0, 6, 6, 3], []⟩ ⟨6, 6, 0⟩ ⟨[3], []⟩
    (by decide) (by decide) (by decide)).1 (by decide)

/-! ## Codec helper lemmas -/

lemma encodeField_length (w v : Nat) : (encodeField w v).length = w := by
  induction w generalizing v with
  | zero => rfl
  | succ w ih => simp [encodeField, ih]

lemma decodeField_encodeField (w v : Nat) (hv : v < 256 ^ w) :
    decodeField (encodeField w v) = v := by
  induction w generalizing v with
  | zero =>
    simp only [Nat.pow_zero, Nat.lt_one_iff] at hv
    subst hv
    rfl
  | succ w ih =>
    have hdiv : v / 256 < 256 ^ w := by
      rw [Nat.div_lt_iff_lt_mul (by norm_num)]
      calc v < 256 ^ (w + 1) := hv
        _ = 256 ^ w * 256 := by ring
    simp only [encodeField, decodeField, ih (v / 256) hdiv]
    omega

lemma decodeFields_encodeFields (ps : List (Nat × Nat))
    (hp : ∀ p ∈ ps, p.2 < 256 ^ p.1) :
    decodeFields (ps.map Prod.fst) (encodeFields ps) = ps.map Prod.snd := by
  induction ps with
  | nil => rfl
  | cons p ps ih =>
    obtain ⟨w, v⟩ := p
    have h1 : v < 256 ^ w := hp (w, v) (List.mem_cons_self _ _)
    have ht : (encodeField w v ++ encodeFields ps).take w = encodeField w v :=
      List.take_left' (encodeField_length w v)
    have hd : (encodeField w v ++ encodeFields ps).drop w = encodeFields ps :=
      List.drop_left' (encodeField_length w v)
    simp only [List.map_cons, encodeFields, decodeFields, ht, hd,
      decodeField_encodeField w v h1, ih fun q hq => hp q (List.mem_cons_of_mem _ hq)]

/-- C7: the codecs round-trip: a legal header (byte-sized ids, 16-bit
length) survives `encodeHeader` then `decodeHeader`, and a legal field
assignment (each value within its declared width) survives the payload
codec. -/
theorem codec_roundtrip (h : Header) (h1 : h.cls < 256) (h2 : h.cmd < 256)
    (h3 : h.len < 65536) (ps : List (Nat × Nat)) (hp : ∀ p ∈ ps, p.2 < 256 ^ p.1) :
    decodeHeader (encodeHeader h) = h ∧
    decodeFields (ps.map Prod.fst) (encodeFields ps) = ps.map Prod.snd := by
  constructor
  · obtain ⟨c, m, l⟩ := h
    simp only [Header.mk.injEq] at h1 h2 h3 ⊢
    simp only [encodeHeader, decodeHeader, List.getD_cons_zero, List.getD_cons_succ,
      Header.mk.injEq]
    refine ⟨?_, ?_, ?_⟩ <;> omega
  · exact decodeFields_encodeFields ps hp

theorem codec_roundtrip_witness :
    decodeHeader (encodeHeader ⟨5, 9, 12⟩) = (⟨5, 9, 12⟩ : Header) ∧
    decodeFields ([((1 : Nat), (3 : Nat)), (2, 300)].map Prod.fst)
        (encodeFields [(1, 3), (2, 300)]) =
      [((1 : Nat), (3 : Nat)), (2, 300)].map Prod.snd :=
  codec_roundtrip ⟨5, 9, 12⟩ (by decide) (by decide) (by decide) [(1, 3), (2, 300)]
    (by decide)

lemma readPayloadLeft_of_le (T : MsgType) (h : Header) (s : SerialState)
    (h1 : T.fixedSize ≤ s.input.length)
    (h2 : sizeSub h.len T.fixedSize ≤
      (SerialState.mk (s.input.drop T.fixedSize) s.output).input.length) :
    readPayloadLeft T h s =
      some (decodeFields T.layout (s.input.take T.fixedSize),
        (s.input.drop T.fixedSize).take (sizeSub h.len T.fixedSize),
        ⟨(s.input.drop T.fixedSize).drop (sizeSub h.len T.fixedSize), s.output⟩) := by
  simp only [readPayloadLeft, socketRead_of_le h1, socketRead_of_le h2]

/-- C5 counterexample: nothing enforces `header.length() >= sizeof(T)`
on the `Partial` decode path, and the leftover read size
`header.length() - sizeof(T)` is an unsigned subtraction: with
`length() = 1` and `sizeof(T) = 2` the decode asks the transport for
`2^64 - 1` trailing bytes, and a stream that can deliver them produces a
trailing buffer whose size is not `header.length() - T.fixedSize` (that
quantity is negative). -/
theorem readPayloadLeft_underflow_cex :
    ((readPayloadLeft ⟨7, 8, [1, 1], .trailing⟩ ⟨7, 8, 1⟩
        ⟨List.replicate (2 ^ 64 + 1) 0, []⟩).map fun r => r.2.1.length) =
      some (2 ^ 64 - 1) ∧
    ((⟨7, 8, 1⟩ : Header).len : Int) - (MsgType.fixedSize ⟨7, 8, [1, 1], .trailing⟩ : Int)
      < 0 ∧
    ¬(((2 ^ 64 - 1 : Nat) : Int) =
      ((⟨7, 8, 1⟩ : Header).len : Int) - (MsgType.fixedSize ⟨7, 8, [1, 1], .trailing⟩ : Int)) := by
  refine ⟨?_, by norm_num [MsgType.fixedSize], by norm_num [MsgType.fixedSize]⟩
  have h1 : MsgType.fixedSize ⟨7, 8, [1, 1], .trailing⟩ ≤
      (SerialState.mk (List.replicate (2 ^ 64 + 1) (0 : Nat)) []).input.length := by
    simp only [List.length_replicate]
    norm_num [MsgType.fixedSize]
  have h2 : sizeSub (Header.len ⟨7, 8, 1⟩) (MsgType.fixedSize ⟨7, 8, [1, 1], .trailing⟩) ≤
      (SerialState.mk
        ((SerialState.mk (List.replicate (2 ^ 64 + 1) (0 : Nat)) []).input.drop
          (MsgType.fixedSize ⟨7, 8, [1, 1], .trailing⟩)) []).input.length := by
    simp only [List.length_drop, List.length_replicate]
    norm_num [MsgType.fixedSize, sizeSub]
  rw [readPayloadLeft_of_le _ _ _ h1 h2]
  simp only [Option.map_some']
  rw [List.drop_replicate, List.take_replicate, List.length_replicate]
  norm_num [MsgType.fixedSize, sizeSub]

/-- C5 (amended): whenever `header.length() >= sizeof(T)`, a successful
`Partial` decode produces a trailing buffer of size exactly
`header.length() - sizeof(T)` (equivalently `sizeof(T) + trailing.size
= header.length()`, so the quantity is non-negative); the code itself
does not enforce that bound. -/
theorem readPayloadLeft_trailing_length (T : MsgType) (h : Header) (s : SerialState)
    (v tr : List Nat) (s' : SerialState)
    (hlen : T.fixedSize ≤ h.len)
    (hres : readPayloadLeft T h s = some (v, tr, s')) :
    tr.length = h.len - T.fixedSize ∧ T.fixedSize + tr.length = h.len := by
  have hsub : sizeSub h.len T.fixedSize = h.len - T.fixedSize := by
    rw [sizeSub, if_pos hlen]
  by_cases h1 : T.fixedSize ≤ s.input.length
  · by_cases h2 : sizeSub h.len T.fixedSize ≤
        (SerialState.mk (s.input.drop T.fixedSize) s.output).input.length
    · rw [readPayloadLeft_of_le T h s h1 h2] at hres
      simp only [Option.some.injEq, Prod.mk.injEq] at hres
      obtain ⟨hv, htr, hs⟩ := hres
      simp only [List.length_drop] at h2
      rw [← htr, List.length_take, List.length_drop, hsub]
      constructor
      · omega
      · omega
    · have hnone : readPayloadLeft T h s = none := by
        simp only [readPayloadLeft, socketRead_of_le h1]
        simp only [List.length_drop] at h2
        simp [socketRead, h2]
      rw [hnone] at hres
      exact absurd hres (by simp)
  · have hnone : readPayloadLeft T h s = none := by
      simp [readPayloadLeft, socketRead, h1]
    rw [hnone] at hres
    exact absurd hres (by simp)

theorem readPayloadLeft_trailing_length_witness :
    ([(9 : Nat), 9, 9] : List Nat).length =
        (⟨1, 1, 5⟩ : Header).len - MsgType.fixedSize ⟨1, 1, [1, 1], .trailing⟩ ∧
    MsgType.fixedSize ⟨1, 1, [1, 1], .trailing⟩ + ([(9 : Nat), 9, 9] : List Nat).length =
        (⟨1, 1, 5⟩ : Header).len :=
  readPayloadLeft_trailing_length ⟨1, 1, [1, 1], .trailing⟩ ⟨1, 1, 5⟩
    ⟨[9, 9, 9, 9, 9], []⟩ [9, 9] [9, 9, 9] ⟨[], []⟩ (by decide) (by rfl)
